import Mathlib

/-!
Verification of the multipart-upload core of `lambda-mongo-dump`.

The definitions below are a shallow embedding of
`src/lambda_mongo_utils/multipart_upload.py` and
`src/lambda_mongo_utils/backup_utils.py`:

* byte streams are `List Nat` (one `Nat` per byte);
* the S3 client is an explicit state (`S3Client`) threaded through every
  API call, with an injectable failure schedule (`failures`: the indices
  of API calls that raise a service error) and a `phantom` list modelling
  uploads that `list_multipart_uploads` still reports but that no longer
  exist (so that aborting them raises `NoSuchUpload`);
* Python exceptions become `Except` values, and every operation also
  returns the final client state (real S3 state survives an exception).
-/

/-- Byte streams, one `Nat` per byte. -/
abbrev Bytes := List Nat

namespace LambdaMongo

/-- `S3MultipartUpload.PART_MINIMUM`: AWS rejects non-final parts smaller
than this (the source sets it to 6,000,000 bytes). -/
def PART_MINIMUM : Nat := 6000000

/-- Default chunk size from the constructor: `chunk_size or 15000000`. -/
def DEFAULT_CHUNK_SIZE : Nat := 15000000

/-- Default buffer size from the constructor: `buffer_size or 50000000`. -/
def DEFAULT_BUFFER_SIZE : Nat := 50000000

/-- Python's `x or d` for an optional integer argument: `None` and `0` are
falsy and fall back to the default. -/
def pyOr (v : Option Nat) (d : Nat) : Nat :=
  match v with
  | none => d
  | some 0 => d
  | some n => n

/-- Python's `s or d` for an optional string: `None` and `''` are falsy. -/
def pyOrStr (v : Option String) (d : String) : String :=
  match v with
  | none => d
  | some s => if s = "" then d else s

/-- The resolved fields of an `S3MultipartUpload` instance. -/
structure S3MultipartUpload where
  bucket : String
  key : String
  chunk_size : Nat
  buffer_size : Nat
deriving DecidableEq, Repr

/-- `S3MultipartUpload.__init__`: resolves falsy `chunk_size`/`buffer_size`
to the defaults, then `assert self.chunk_size >= self.PART_MINIMUM`;
a failed assertion (an `AssertionError` before any store call) is `none`. -/
def S3MultipartUpload.init (bucket key : String)
    (chunk_size buffer_size : Option Nat) : Option S3MultipartUpload :=
  let cs := pyOr chunk_size DEFAULT_CHUNK_SIZE
  let bs := pyOr buffer_size DEFAULT_BUFFER_SIZE
  if PART_MINIMUM ≤ cs then
    some { bucket := bucket, key := key, chunk_size := cs, buffer_size := bs }
  else
    none

/-- Fuelled body of the chunker loop; the fuel only bounds the number of
iterations (each iteration drops at least one byte, so `data.length` fuel
is always enough) and is spent one unit per emitted chunk. -/
def chunkSplitGo (C : Nat) : Nat → Bytes → List Bytes
  | 0, _ => []
  | fuel + 1, data =>
    if data = [] ∨ C = 0 then []
    else data.take C :: chunkSplitGo C fuel (data.drop C)

/-- The chunks produced by `iter(lambda: process.stdout.read(chunk_size), b'')`:
each `read(C)` on the pipe returns exactly `C` bytes until fewer remain,
and the loop stops at the first empty read. -/
def chunkSplit (C : Nat) (data : Bytes) : List Bytes :=
  chunkSplitGo C data.length data

/-- Errors raised by the modelled boto3 S3 client. `serviceError` is an
injected store-side failure (scheduled through `S3Client.failures`);
`noSuchUpload` is `s3.exceptions.NoSuchUpload`. -/
inductive S3Error where
  | serviceError
  | noSuchUpload
deriving DecidableEq, Repr

/-- State of the modelled S3 store for one bucket.

* `live`: the live multipart uploads, as `(key, uploadId)` pairs;
* `phantom`: uploads that `list_multipart_uploads` still reports but
  that no longer exist (aborting one raises `NoSuchUpload` — the
  scenario the repository's tests build with a monkeypatched listing);
* `objects`: completed objects, newest first, as `(key, bytes)`;
* `parts`: staged part uploads, newest first, as `(uploadId, partNumber, bytes)`;
* `nextId`: counter issuing fresh upload ids;
* `clock` / `failures`: every API call ticks the clock; a call whose tick
  index is listed in `failures` raises `serviceError` instead. -/
structure S3Client where
  live : List (String × Nat)
  phantom : List (String × Nat)
  objects : List (String × Bytes)
  parts : List (Nat × Nat × Bytes)
  nextId : Nat
  clock : Nat
  failures : List Nat
deriving DecidableEq, Repr

/-- Advance the API-call clock and report whether this call fails. -/
def tick (c : S3Client) : S3Client × Bool :=
  ({ c with clock := c.clock + 1 }, decide (c.clock ∈ c.failures))

/-- `s3.list_multipart_uploads(Bucket=...)`: returns every upload the store
reports (live ones plus phantoms). -/
def listMPU (c : S3Client) : S3Client × Except S3Error (List (String × Nat)) :=
  match tick c with
  | (c', true) => (c', .error .serviceError)
  | (c', false) => (c', .ok (c'.live ++ c'.phantom))

/-- `s3.abort_multipart_upload(Bucket=..., Key=key, UploadId=id)`. -/
def abortMPU (c : S3Client) (key : String) (id : Nat) :
    S3Client × Except S3Error Unit :=
  match tick c with
  | (c', true) => (c', .error .serviceError)
  | (c', false) =>
    if (key, id) ∈ c'.live then
      ({ c' with live := c'.live.filter (fun p => p ≠ (key, id)) }, .ok ())
    else
      (c', .error .noSuchUpload)

/-- `s3.create_multipart_upload(Bucket=..., Key=key)`: registers a fresh
live upload and returns its id. -/
def createMPU (c : S3Client) (key : String) : S3Client × Except S3Error Nat :=
  match tick c with
  | (c', true) => (c', .error .serviceError)
  | (c', false) =>
    ({ c' with nextId := c'.nextId + 1, live := (key, c'.nextId) :: c'.live },
     .ok c'.nextId)

/-- The opaque integrity tag the store returns for a staged part. -/
def eTagOf (id n : Nat) : String :=
  "etag-" ++ toString id ++ "-" ++ toString n

/-- `s3.upload_part(Body=chunk, Bucket=..., Key=key, UploadId=id,
PartNumber=n)`: stages the chunk under this part number and returns its
ETag. -/
def uploadPart (c : S3Client) (key : String) (id n : Nat) (chunk : Bytes) :
    S3Client × Except S3Error String :=
  match tick c with
  | (c', true) => (c', .error .serviceError)
  | (c', false) =>
    if (key, id) ∈ c'.live then
      ({ c' with parts := (id, n, chunk) :: c'.parts }, .ok (eTagOf id n))
    else
      (c', .error .noSuchUpload)

/-- The bytes the store holds for part `n` of upload `id` (the most
recently staged version wins). -/
def partData (c : S3Client) (id n : Nat) : Bytes :=
  match c.parts.find? (fun r => r.1 = id ∧ r.2.1 = n) with
  | some r => r.2.2
  | none => []

/-- `s3.complete_multipart_upload(...)`: assembles the listed parts, in the
given order, into the final object and retires the live upload. -/
def completeMPU (c : S3Client) (key : String) (id : Nat)
    (parts : List (Nat × String)) : S3Client × Except S3Error Unit :=
  match tick c with
  | (c', true) => (c', .error .serviceError)
  | (c', false) =>
    if (key, id) ∈ c'.live then
      let body := (parts.map (fun p => partData c' id p.1)).flatten
      ({ c' with
          live := c'.live.filter (fun p => p ≠ (key, id)),
          objects := (key, body) :: c'.objects }, .ok ())
    else
      (c', .error .noSuchUpload)

/-- The per-id loop inside `S3MultipartUpload.abort_all`: abort each id,
swallowing `NoSuchUpload` (`except (KeyError, NoSuchUpload): pass`),
collecting into `abortions` the ids whose abort succeeded. -/
def abortAllLoop (key : String) : List Nat → S3Client →
    S3Client × Except S3Error (List Nat)
  | [], c => (c, .ok [])
  | id :: rest, c =>
    match abortMPU c key id with
    | (c', .error .noSuchUpload) => abortAllLoop key rest c'
    | (c', .error e) => (c', .error e)
    | (c', .ok ()) =>
      match abortAllLoop key rest c' with
      | (c'', .error e) => (c'', .error e)
      | (c'', .ok abs) => (c'', .ok (id :: abs))

/-- `S3MultipartUpload.abort_all`: lists the uploads reported for the
bucket, keeps the ids whose key matches, aborts each (swallowing per-id
`NoSuchUpload`) and returns the ids actually aborted. -/
def abort_all (c : S3Client) (key : String) :
    S3Client × Except S3Error (List Nat) :=
  match listMPU c with
  | (c', .error e) => (c', .error e)
  | (c', .ok ups) =>
    let mpu_ids := (ups.filter (fun p => p.1 = key)).map (fun p => p.2)
    abortAllLoop key mpu_ids c'

/-- `S3MultipartUpload.create`: `create_multipart_upload`, returning the id. -/
def create (c : S3Client) (key : String) : S3Client × Except S3Error Nat :=
  createMPU c key

/-- Fuelled body of the chunking loop of `upload_from_stdout`
(`for chunk in iter(lambda: process.stdout.read(chunk_size), b'')`):
uploads each chunk under part number `i` (starting at 1), recording
`{"PartNumber": i, "ETag": part["ETag"]}` and the running byte count.
The fuel only bounds the iteration count (one unit per uploaded part;
`stream.length` is always enough since every iteration drops at least
one byte). -/
def uploadChunksLoopGo (key : String) (id C : Nat) :
    Nat → S3Client → Nat → Bytes →
    S3Client × Except S3Error (List (Nat × String) × Nat)
  | 0, c, _, _ => (c, .ok ([], 0))
  | fuel + 1, c, i, stream =>
    if stream.take C = [] then
      (c, .ok ([], 0))
    else
      match uploadPart c key id i (stream.take C) with
      | (c₁, .error e) => (c₁, .error e)
      | (c₁, .ok etag) =>
        match uploadChunksLoopGo key id C fuel c₁ (i + 1) (stream.drop C) with
        | (c₂, .error e) => (c₂, .error e)
        | (c₂, .ok (rest, bytes)) =>
          (c₂, .ok ((i, etag) :: rest, (stream.take C).length + bytes))

/-- The chunking loop of `upload_from_stdout`, entered with adequate fuel. -/
def uploadChunksLoop (c : S3Client) (key : String) (id C i : Nat)
    (stream : Bytes) : S3Client × Except S3Error (List (Nat × String) × Nat) :=
  uploadChunksLoopGo key id C stream.length c i stream

/-- The grace period of the post-stream `process.wait(timeout=1.0)` /
`process.communicate(timeout=1.0)` call, in seconds. -/
def graceTimeoutSeconds : ℚ := 1

/-- The producer process spawned by `upload_from_stdout`, abstracted to
what the supervisor can observe: the bytes its stdout yields, the bytes
its stderr yields, whether it exits within the `graceTimeoutSeconds`
grace period once its stdout is exhausted, and its exit status. -/
structure Process where
  output : Bytes
  stderrData : Bytes
  exitsWithinGrace : Bool
  returncode : Int
deriving DecidableEq, Repr

/-- Errors propagating out of `upload_from_stdout`: an S3 client error
from a part upload, `subprocess.TimeoutExpired` from the post-stream
wait, or `subprocess.CalledProcessError` carrying a nonzero exit code. -/
inductive UploadError where
  | s3Err (e : S3Error)
  | timeoutExpired
  | calledProcessError (code : Int)
deriving DecidableEq, Repr

/-- `S3MultipartUpload.upload_from_stdout`: runs the chunking loop over
the process's stdout, then waits for the process with the bounded grace
timeout (`terminate()` is called — the returned `Bool` — exactly when
that wait times out), then raises on a nonzero exit status, and otherwise
returns `(parts, stderr, uploaded_bytes)`. -/
def upload_from_stdout (c : S3Client) (key : String) (id C : Nat)
    (p : Process) (capture_stderr : Bool) :
    S3Client × Bool × Except UploadError (List (Nat × String) × Bytes × Nat) :=
  match uploadChunksLoop c key id C 1 p.output with
  | (c', .error e) => (c', false, .error (.s3Err e))
  | (c', .ok (parts, uploaded_bytes)) =>
    if p.exitsWithinGrace then
      if p.returncode ≠ 0 then
        (c', false, .error (.calledProcessError p.returncode))
      else
        (c', false,
         .ok (parts, (if capture_stderr then p.stderrData else []), uploaded_bytes))
    else
      (c', true, .error .timeoutExpired)

/-- Modelled from the spec: `S3MultipartUpload.upload_from_stream` is
called by `mongo_dump_to_s3` and by the repository's tests but its
definition is not among the provided sources. Per §4.1–§4.2 and the
chunking-determinism property of §8, it drives the same Part Chunker over
a plain readable stream — emitting `ceil(L / C)` parts, every part but
the last exactly `C` bytes — and uploads each emitted part with
sequentially increasing part numbers, returning `(parts, size)`. -/
def upload_from_stream (c : S3Client) (key : String) (id C : Nat)
    (data : Bytes) : S3Client × Except S3Error (List (Nat × String) × Nat) :=
  uploadChunksLoop c key id C 1 data

/-- `S3MultipartUpload.complete`: `complete_multipart_upload` with the
accumulated parts list. -/
def complete (c : S3Client) (key : String) (id : Nat)
    (parts : List (Nat × String)) : S3Client × Except S3Error Unit :=
  completeMPU c key id parts

/-- The `mongodump` producer behind the `mongo_dump` context manager,
abstracted to what `backup_utils` observes: the dumped bytes on stdout,
the document count parsed from its stderr, whether
`process.communicate(timeout=1.0)` returns within the grace period, and
its exit status. -/
structure MongoDumpProc where
  output : Bytes
  num_docs : Option Nat
  exitsWithinGrace : Bool
  returncode : Int
deriving DecidableEq, Repr

/-- `BackupStats` from `backup_utils.py` (`time` is the elapsed seconds
recorded by `stats.measure()`, set only when the measured block exits
normally). -/
structure BackupStats where
  bucket : String
  collection : String
  db : String
  key : String
  num_docs : Option Nat
  time : Option ℚ
  size : Option Nat
deriving DecidableEq, Repr

/-- Errors propagating out of `mongo_dump_to_s3`: a boto3 client error,
the constructor's `AssertionError`, `subprocess.TimeoutExpired` from
`mongo_dump`'s `communicate(timeout=1.0)`, or the `Exception` raised when
`mongodump` exits nonzero. -/
inductive BackupError where
  | s3Error (e : S3Error)
  | assertionFailed
  | dumpTimeout
  | dumpExit (code : Int)
deriving DecidableEq, Repr

/-- The body of `mongo_dump_to_s3`'s `try` block: stream the dump through
`upload_from_stream`, then (on the `mongo_dump` context manager's exit
path, which only runs when the body succeeded) `communicate(timeout=1.0)`
and the `returncode != 0` check. -/
def dumpBody (c : S3Client) (dump : MongoDumpProc) (key : String)
    (id C : Nat) : S3Client × Except BackupError (List (Nat × String) × Nat) :=
  match upload_from_stream c key id C dump.output with
  | (c', .error e) => (c', .error (.s3Error e))
  | (c', .ok (parts, size)) =>
    if dump.exitsWithinGrace then
      if dump.returncode ≠ 0 then
        (c', .error (.dumpExit dump.returncode))
      else
        (c', .ok (parts, size))
    else
      (c', .error .dumpTimeout)

/-- `mongo_dump_to_s3` from `backup_utils.py`: resolve `db`, build the
`S3MultipartUpload` (whose constructor may raise `AssertionError`),
`abort_all`, `create`, run the dump body; on any exception run
`abort_all` and re-raise (if that `abort_all` itself raises, its error
propagates instead, as in the Python `except` block); on success
`complete` and return the filled `BackupStats`. `uriDb` stands for
`parse_uri(uri).get('db', 'admin')` (URI parsing is an excluded
collaborator) and `elapsed` for the wall-clock seconds `stats.measure()`
records around the dump block. -/
def mongo_dump_to_s3 (c : S3Client) (dump : MongoDumpProc)
    (uriDb : String) (collection bucket key : String) (db : Option String)
    (chunk_size buffer_size : Option Nat) (elapsed : ℚ) :
    S3Client × Except BackupError BackupStats :=
  let dbv := pyOrStr db uriDb
  match S3MultipartUpload.init bucket key chunk_size buffer_size with
  | none => (c, .error .assertionFailed)
  | some mpu =>
    match abort_all c key with
    | (c₁, .error e) => (c₁, .error (.s3Error e))
    | (c₁, .ok _) =>
      match create c₁ key with
      | (c₂, .error e) => (c₂, .error (.s3Error e))
      | (c₂, .ok mpu_id) =>
        match dumpBody c₂ dump key mpu_id mpu.chunk_size with
        | (c₃, .error e) =>
          match abort_all c₃ key with
          | (c₄, .error e₂) => (c₄, .error (.s3Error e₂))
          | (c₄, .ok _) => (c₄, .error e)
        | (c₃, .ok (parts, size)) =>
          match complete c₃ key mpu_id parts with
          | (c₄, .error e) => (c₄, .error (.s3Error e))
          | (c₄, .ok ()) =>
            (c₄, .ok { bucket := bucket, collection := collection, db := dbv,
                       key := key, num_docs := dump.num_docs,
                       time := some elapsed, size := some size })

/-- The part records staged by the chunking loop for chunks numbered
from `i`: the k-th chunk is staged as `(id, i + k, chunk)`. -/
def mkRecords (id : Nat) : Nat → List Bytes → List (Nat × Nat × Bytes)
  | _, [] => []
  | i, ch :: rest => (id, i, ch) :: mkRecords id (i + 1) rest

/-- The `{"PartNumber": n, "ETag": t}` pairs the chunking loop returns for
chunks numbered from `i`. -/
def mkParts (id : Nat) : Nat → List Bytes → List (Nat × String)
  | _, [] => []
  | i, ch :: rest => (i, eTagOf id i) :: mkParts id (i + 1) rest

end LambdaMongo

namespace LambdaMongo

/-! ### Helper lemmas about the chunker -/

theorem chunkSplitGo_fuel {C : Nat} :
    ∀ (f₁ f₂ : Nat) (d : Bytes), d.length ≤ f₁ → d.length ≤ f₂ →
      chunkSplitGo C f₁ d = chunkSplitGo C f₂ d := by
  intro f₁
  induction f₁ with
  | zero =>
    intro f₂ d h₁ _
    have hd : d = [] := List.eq_nil_of_length_eq_zero (by omega)
    subst hd
    cases f₂ with
    | zero => rfl
    | succ f₂ => simp [chunkSplitGo]
  | succ f₁ ih =>
    intro f₂ d h₁ h₂
    cases f₂ with
    | zero =>
      have hd : d = [] := List.eq_nil_of_length_eq_zero (by omega)
      subst hd
      simp [chunkSplitGo]
    | succ f₂ =>
      rw [chunkSplitGo, chunkSplitGo]
      by_cases hg : d = [] ∨ C = 0
      · rw [if_pos hg, if_pos hg]
      · rw [if_neg hg, if_neg hg]
        push_neg at hg
        have hlen : (d.drop C).length ≤ min f₁ f₂ := by
          have : 1 ≤ d.length := List.length_pos.mpr hg.1
          have : 1 ≤ C := Nat.pos_of_ne_zero hg.2
          simp only [List.length_drop]
          omega
        rw [ih f₂ (d.drop C) (by omega) (by omega)]

theorem chunkSplit_nil (C : Nat) : chunkSplit C [] = [] := rfl

theorem chunkSplit_cons {C : Nat} {data : Bytes} (hC : C ≠ 0) (hd : data ≠ []) :
    chunkSplit C data = data.take C :: chunkSplit C (data.drop C) := by
  cases data with
  | nil => exact absurd rfl hd
  | cons a l =>
    show chunkSplitGo C (l.length + 1) (a :: l) = _
    rw [chunkSplitGo, if_neg (by push_neg; exact ⟨hd, hC⟩)]
    congr 1
    apply chunkSplitGo_fuel
    · have : 1 ≤ C := Nat.pos_of_ne_zero hC
      simp only [List.length_drop, List.length_cons]
      omega
    · exact le_rfl

/-- The recursion scheme of the chunker: a property holds of every stream
once it holds at the stopping condition and is preserved by dropping one
chunk. -/
theorem chunkSplit_induction (C : Nat) (motive : Bytes → Prop)
    (h1 : ∀ d, d = [] ∨ C = 0 → motive d)
    (h2 : ∀ d, ¬(d = [] ∨ C = 0) → motive (List.drop C d) → motive d)
    (data : Bytes) : motive data := by
  suffices H : ∀ (n : Nat) (d : Bytes), d.length ≤ n → motive d from
    H data.length data le_rfl
  intro n
  induction n with
  | zero =>
    intro d hd
    exact h1 d (Or.inl (List.eq_nil_of_length_eq_zero (by omega)))
  | succ n ih =>
    intro d hd
    by_cases hc : d = [] ∨ C = 0
    · exact h1 d hc
    · refine h2 d hc (ih _ ?_)
      push_neg at hc
      have : 1 ≤ d.length := List.length_pos.mpr hc.1
      have : 1 ≤ C := Nat.pos_of_ne_zero hc.2
      simp only [List.length_drop]
      omega

theorem chunkSplit_flatten {C : Nat} (hC : 0 < C) (data : Bytes) :
    (chunkSplit C data).flatten = data := by
  refine chunkSplit_induction C (fun d => (chunkSplit C d).flatten = d) ?_ ?_ data
  · intro x hx
    rcases hx with hx | hx
    · subst hx; rw [chunkSplit_nil]; rfl
    · omega
  · intro x hx ih
    push_neg at hx
    rw [chunkSplit_cons hx.2 hx.1]
    simp only [List.flatten_cons, ih]
    exact List.take_append_drop C x

theorem chunkSplit_length {C : Nat} (hC : 0 < C) (data : Bytes) :
    (chunkSplit C data).length = (data.length + C - 1) / C := by
  refine chunkSplit_induction C
    (fun d => (chunkSplit C d).length = (d.length + C - 1) / C) ?_ ?_ data
  · intro x hx
    rcases hx with hx | hx
    · subst hx
      rw [chunkSplit_nil]
      simp only [List.length_nil, Nat.zero_add]
      exact (Nat.div_eq_of_lt (by omega)).symm
    · omega
  · intro x hx ih
    push_neg at hx
    rw [chunkSplit_cons hx.2 hx.1]
    simp only [List.length_cons, ih, List.length_drop]
    have hL : 1 ≤ x.length := List.length_pos.mpr hx.1
    rcases le_or_lt C x.length with h | h
    · have e1 : x.length - C + C - 1 = x.length - 1 + C - C := by omega
      have e2 : x.length + C - 1 = x.length - 1 + C := by omega
      rw [e1, e2, Nat.add_sub_cancel, Nat.add_div_right _ hC]
    · have e1 : x.length - C = 0 := by omega
      have e2 : x.length + C - 1 = x.length - 1 + C := by omega
      rw [e1, e2, Nat.add_div_right _ hC, Nat.zero_add]
      rw [Nat.div_eq_of_lt (by omega), Nat.div_eq_of_lt (by omega)]

theorem chunkSplit_dropLast {C : Nat} (hC : 0 < C) (data : Bytes) :
    ∀ ch ∈ (chunkSplit C data).dropLast, ch.length = C := by
  refine chunkSplit_induction C
    (fun d => ∀ ch ∈ (chunkSplit C d).dropLast, ch.length = C) ?_ ?_ data
  · intro x hx ch hch
    rcases hx with hx | hx
    · subst hx; rw [chunkSplit_nil] at hch; simp at hch
    · omega
  · intro x hx ih ch hch
    push_neg at hx
    rw [chunkSplit_cons hx.2 hx.1] at hch
    by_cases hrest : chunkSplit C (x.drop C) = []
    · rw [hrest] at hch
      simp at hch
    · rw [List.dropLast_cons_of_ne_nil hrest] at hch
      rcases List.mem_cons.mp hch with h | h
      · subst h
        have hle : C ≤ x.length := by
          by_contra hlt
          push_neg at hlt
          have hdrop : x.drop C = [] := List.drop_eq_nil_of_le (le_of_lt hlt)
          exact hrest (by rw [hdrop, chunkSplit_nil])
        rw [List.length_take]
        exact Nat.min_eq_left hle
      · exact ih ch h

theorem chunkSplit_getLast {C : Nat} (hC : 0 < C) (data : Bytes)
    (hd : data ≠ []) :
    ∃ last, (chunkSplit C data).getLast? = some last ∧
      last.length = (if data.length % C = 0 then C else data.length % C) := by
  refine chunkSplit_induction C
    (fun d => d ≠ [] → ∃ last, (chunkSplit C d).getLast? = some last ∧
      last.length = (if d.length % C = 0 then C else d.length % C))
    ?_ ?_ data hd
  · intro x hx hne
    rcases hx with hx | hx
    · exact absurd hx hne
    · omega
  · intro x hx ih _
    push_neg at hx
    rw [chunkSplit_cons hx.2 hx.1]
    have hL : 1 ≤ x.length := List.length_pos.mpr hx.1
    by_cases hrest : x.drop C = []
    · have hle : x.length ≤ C := by
        have := List.drop_eq_nil_iff_le.mp hrest
        omega
      rw [hrest, chunkSplit_nil]
      refine ⟨x.take C, by simp, ?_⟩
      rw [List.length_take, Nat.min_eq_right hle]
      by_cases hmod : x.length % C = 0
      · rw [if_pos hmod]
        rcases Nat.lt_or_ge x.length C with h | h
        · rw [Nat.mod_eq_of_lt h] at hmod; omega
        · omega
      · rw [if_neg hmod]
        have hlt : x.length < C := by
          rcases Nat.lt_or_ge x.length C with h | h
          · exact h
          · have hxc : x.length = C := le_antisymm hle h
            rw [hxc, Nat.mod_self] at hmod
            exact absurd rfl hmod
        exact (Nat.mod_eq_of_lt hlt).symm
    · obtain ⟨last, hl, hlen⟩ := ih hrest
      have hne2 : chunkSplit C (x.drop C) ≠ [] := by
        rw [chunkSplit_cons hx.2 hrest]
        simp
      obtain ⟨b, l', he⟩ := List.exists_cons_of_ne_nil hne2
      have hCle : C ≤ x.length := by
        by_contra hlt
        push_neg at hlt
        exact hrest (List.drop_eq_nil_of_le (le_of_lt hlt))
      refine ⟨last, ?_, ?_⟩
      · rw [he]
        rw [he] at hl
        exact List.getLast?_cons_cons.trans hl
      · simp only [List.length_drop] at hlen
        have hmods : (x.length - C) % C = x.length % C := by
          conv_rhs => rw [show x.length = x.length - C + C from by omega]
          rw [Nat.add_mod_right]
        rw [hmods] at hlen
        exact hlen

theorem chunkSplit_ne_nil {C : Nat} (hC : 0 < C) (data : Bytes) :
    ∀ ch ∈ chunkSplit C data, ch ≠ [] := by
  refine chunkSplit_induction C (fun d => ∀ ch ∈ chunkSplit C d, ch ≠ []) ?_ ?_ data
  · intro x hx ch hch
    rcases hx with hx | hx
    · subst hx; rw [chunkSplit_nil] at hch; simp at hch
    · omega
  · intro x hx ih ch hch
    push_neg at hx
    rw [chunkSplit_cons hx.2 hx.1] at hch
    rcases List.mem_cons.mp hch with h | h
    · subst h
      rw [Ne, List.take_eq_nil_iff]
      push_neg
      exact ⟨hx.2, hx.1⟩
    · exact ih ch h

/-! ### Step lemmas for the modelled client (healthy store: no scheduled
failures) -/

theorem listMPU_ok {c : S3Client} (hf : c.failures = []) :
    listMPU c = ({ c with clock := c.clock + 1 }, .ok (c.live ++ c.phantom)) := by
  simp [listMPU, tick, hf]

theorem abortMPU_mem {c : S3Client} {key : String} {id : Nat}
    (hf : c.failures = []) (h : (key, id) ∈ c.live) :
    abortMPU c key id =
      ({ c with clock := c.clock + 1,
                live := c.live.filter (fun p => p ≠ (key, id)) }, .ok ()) := by
  simp [abortMPU, tick, hf, h]

theorem abortMPU_not_mem {c : S3Client} {key : String} {id : Nat}
    (hf : c.failures = []) (h : (key, id) ∉ c.live) :
    abortMPU c key id =
      ({ c with clock := c.clock + 1 }, .error .noSuchUpload) := by
  simp [abortMPU, tick, hf, h]

theorem createMPU_ok {c : S3Client} (hf : c.failures = []) (key : String) :
    createMPU c key =
      ({ c with clock := c.clock + 1, nextId := c.nextId + 1,
                live := (key, c.nextId) :: c.live }, .ok c.nextId) := by
  simp [createMPU, tick, hf]

theorem uploadPart_ok {c : S3Client} {key : String} {id : Nat}
    (hf : c.failures = []) (h : (key, id) ∈ c.live) (n : Nat) (chunk : Bytes) :
    uploadPart c key id n chunk =
      ({ c with clock := c.clock + 1,
                parts := (id, n, chunk) :: c.parts }, .ok (eTagOf id n)) := by
  simp [uploadPart, tick, hf, h]

theorem completeMPU_ok {c : S3Client} {key : String} {id : Nat}
    (hf : c.failures = []) (h : (key, id) ∈ c.live)
    (parts : List (Nat × String)) :
    completeMPU c key id parts =
      ({ c with clock := c.clock + 1,
                live := c.live.filter (fun p => p ≠ (key, id)),
                objects :=
                  (key, (parts.map
                    (fun p => partData { c with clock := c.clock + 1 } id p.1)).flatten)
                    :: c.objects }, .ok ()) := by
  simp [completeMPU, tick, hf, h]

/-! ### Step lemmas under a partial failure schedule: a call succeeds
whenever its tick index is not scheduled, and raises the service error
when it is -/

theorem listMPU_miss {c : S3Client} (h : c.clock ∉ c.failures) :
    listMPU c = ({ c with clock := c.clock + 1 }, .ok (c.live ++ c.phantom)) := by
  simp [listMPU, tick, h]

theorem createMPU_miss {c : S3Client} (h : c.clock ∉ c.failures) (key : String) :
    createMPU c key =
      ({ c with clock := c.clock + 1, nextId := c.nextId + 1,
                live := (key, c.nextId) :: c.live }, .ok c.nextId) := by
  simp [createMPU, tick, h]

theorem abortMPU_mem_miss {c : S3Client} {key : String} {id : Nat}
    (h : c.clock ∉ c.failures) (hmem : (key, id) ∈ c.live) :
    abortMPU c key id =
      ({ c with clock := c.clock + 1,
                live := c.live.filter (fun p => p ≠ (key, id)) }, .ok ()) := by
  simp [abortMPU, tick, h, hmem]

theorem uploadPart_hit {c : S3Client} {key : String} {id : Nat}
    (h : c.clock ∈ c.failures) (n : Nat) (chunk : Bytes) :
    uploadPart c key id n chunk =
      ({ c with clock := c.clock + 1 }, .error .serviceError) := by
  simp [uploadPart, tick, h]

/-! ### The chunking loop on a healthy store -/

theorem uploadChunksLoopGo_fuel {key : String} {id C : Nat} :
    ∀ (f₁ f₂ : Nat) (c : S3Client) (i : Nat) (s : Bytes),
      s.length ≤ f₁ → s.length ≤ f₂ →
      uploadChunksLoopGo key id C f₁ c i s = uploadChunksLoopGo key id C f₂ c i s := by
  intro f₁
  induction f₁ with
  | zero =>
    intro f₂ c i s h₁ _
    have hs : s = [] := List.eq_nil_of_length_eq_zero (by omega)
    subst hs
    cases f₂ with
    | zero => rfl
    | succ f₂ => simp [uploadChunksLoopGo]
  | succ f₁ ih =>
    intro f₂ c i s h₁ h₂
    cases f₂ with
    | zero =>
      have hs : s = [] := List.eq_nil_of_length_eq_zero (by omega)
      subst hs
      simp [uploadChunksLoopGo]
    | succ f₂ =>
      rw [uploadChunksLoopGo, uploadChunksLoopGo]
      by_cases htake : s.take C = []
      · rw [if_pos htake, if_pos htake]
      · rw [if_neg htake, if_neg htake]
        simp only [List.take_eq_nil_iff, not_or] at htake
        have hlen : (s.drop C).length ≤ min f₁ f₂ := by
          have : 1 ≤ s.length := List.length_pos.mpr htake.2
          have : 1 ≤ C := Nat.pos_of_ne_zero htake.1
          simp only [List.length_drop]
          omega
        have hrw : ∀ (x : S3Client),
            uploadChunksLoopGo key id C f₁ x (i + 1) (s.drop C) =
            uploadChunksLoopGo key id C f₂ x (i + 1) (s.drop C) := by
          intro x
          exact ih f₂ x (i + 1) (s.drop C) (by omega) (by omega)
        simp only [hrw]

/-- The recurrence the chunking loop satisfies (the fuel in the wrapper is
always sufficient). -/
theorem uploadChunksLoop_eq (c : S3Client) (key : String) (id C i : Nat)
    (stream : Bytes) :
    uploadChunksLoop c key id C i stream =
      if stream.take C = [] then
        (c, .ok ([], 0))
      else
        match uploadPart c key id i (stream.take C) with
        | (c₁, .error e) => (c₁, .error e)
        | (c₁, .ok etag) =>
          match uploadChunksLoop c₁ key id C (i + 1) (stream.drop C) with
          | (c₂, .error e) => (c₂, .error e)
          | (c₂, .ok (rest, bytes)) =>
            (c₂, .ok ((i, etag) :: rest, (stream.take C).length + bytes)) := by
  cases stream with
  | nil => simp [uploadChunksLoop, uploadChunksLoopGo]
  | cons a l =>
    show uploadChunksLoopGo key id C (l.length + 1) c i (a :: l) = _
    rw [uploadChunksLoopGo]
    by_cases htake : (a :: l).take C = []
    · rw [if_pos htake, if_pos htake]
    · rw [if_neg htake, if_neg htake]
      simp only [List.take_eq_nil_iff, not_or] at htake
      have hrw : ∀ (x : S3Client),
          uploadChunksLoopGo key id C l.length x (i + 1) ((a :: l).drop C) =
          uploadChunksLoop x key id C (i + 1) ((a :: l).drop C) := by
        intro x
        rw [uploadChunksLoop]
        apply uploadChunksLoopGo_fuel
        · have : 1 ≤ C := Nat.pos_of_ne_zero htake.1
          simp only [List.length_drop, List.length_cons]
          omega
        · exact le_rfl
      simp only [hrw]

theorem uploadChunksLoop_fuel {key : String} {id C : Nat} (hC : 0 < C) :
    ∀ (n : Nat) (stream : Bytes), stream.length ≤ n →
      ∀ (i : Nat) (c : S3Client), c.failures = [] → (key, id) ∈ c.live →
      uploadChunksLoop c key id C i stream =
        ({ c with
            parts := (mkRecords id i (chunkSplit C stream)).reverse ++ c.parts,
            clock := c.clock + (chunkSplit C stream).length },
         .ok (mkParts id i (chunkSplit C stream), stream.length)) := by
  intro n
  induction n with
  | zero =>
    intro stream hlen i c hf hlive
    have hs : stream = [] := List.eq_nil_of_length_eq_zero (by omega)
    subst hs
    rw [uploadChunksLoop_eq]
    simp [chunkSplit_nil, mkRecords, mkParts]
  | succ n ih =>
    intro stream hlen i c hf hlive
    by_cases hs : stream = []
    · subst hs
      rw [uploadChunksLoop_eq]
      simp [chunkSplit_nil, mkRecords, mkParts]
    · have htake : stream.take C ≠ [] := by
        rw [Ne, List.take_eq_nil_iff]
        push_neg
        exact ⟨by omega, hs⟩
      rw [uploadChunksLoop_eq, if_neg htake, uploadPart_ok hf hlive]
      dsimp only
      have hrec := ih (stream.drop C)
        (by
          simp only [List.length_drop]
          have : 1 ≤ stream.length := List.length_pos.mpr hs
          omega)
        (i + 1)
        { c with clock := c.clock + 1, parts := (id, i, stream.take C) :: c.parts }
        hf hlive
      rw [hrec]
      rw [chunkSplit_cons (by omega) hs]
      simp only [mkRecords, mkParts, List.reverse_cons, List.append_assoc,
        List.singleton_append, List.length_cons]
      have hbytes : (List.take C stream).length + (List.drop C stream).length
          = stream.length := by
        simp only [List.length_take, List.length_drop]
        omega
      have hclock : c.clock + 1 + (chunkSplit C (List.drop C stream)).length
          = c.clock + ((chunkSplit C (List.drop C stream)).length + 1) := by
        omega
      rw [hbytes, hclock]

/-- The chunking loop, stated without fuel. -/
theorem uploadChunksLoop_ok {key : String} {id C : Nat} (hC : 0 < C)
    (stream : Bytes) (i : Nat) (c : S3Client)
    (hf : c.failures = []) (hlive : (key, id) ∈ c.live) :
    uploadChunksLoop c key id C i stream =
      ({ c with
          parts := (mkRecords id i (chunkSplit C stream)).reverse ++ c.parts,
          clock := c.clock + (chunkSplit C stream).length },
       .ok (mkParts id i (chunkSplit C stream), stream.length)) :=
  uploadChunksLoop_fuel hC stream.length stream le_rfl i c hf hlive

/-! ### The abort-all loop on a healthy store -/

theorem abortAllLoop_live_pass {key : String} :
    ∀ (A : List Nat) (c : S3Client), c.failures = [] →
      (c.live.filter (fun p => p.1 = key)).map (fun p => p.2) = A → A.Nodup →
      ∃ k, abortAllLoop key A c =
        ({ c with clock := c.clock + k,
                  live := c.live.filter (fun p => p.1 ≠ key) }, .ok A) := by
  intro A
  induction A with
  | nil =>
    intro c hf hA _
    have hfil : c.live.filter (fun p => p.1 = key) = [] :=
      List.map_eq_nil.mp hA
    have hself : c.live.filter (fun p => p.1 ≠ key) = c.live := by
      rw [List.filter_eq_self]
      intro p hp
      by_contra hcon
      have hpk : p.1 = key := by simpa using hcon
      have : p ∈ c.live.filter (fun p => p.1 = key) :=
        List.mem_filter.mpr ⟨hp, by simp [hpk]⟩
      rw [hfil] at this
      exact absurd this (List.not_mem_nil p)
    refine ⟨0, ?_⟩
    rw [abortAllLoop, hself]
    simp
  | cons a A' ih =>
    intro c hf hA hnd
    obtain ⟨q, rest, hfil, hq2, hrest⟩ :
        ∃ q rest, c.live.filter (fun p => p.1 = key) = q :: rest ∧
          q.2 = a ∧ rest.map (fun p => p.2) = A' := by
      cases hfl : c.live.filter (fun p => p.1 = key) with
      | nil => rw [hfl] at hA; simp at hA
      | cons q rest =>
        rw [hfl] at hA
        simp only [List.map_cons, List.cons.injEq] at hA
        exact ⟨q, rest, rfl, hA.1, hA.2⟩
    have hqmem : q ∈ c.live.filter (fun p => p.1 = key) := by
      rw [hfil]; exact List.mem_cons_self q rest
    have hqkey : q.1 = key := by
      have := List.of_mem_filter hqmem
      simpa using this
    have hqlive : q ∈ c.live := List.mem_of_mem_filter hqmem
    have hqeq : q = (key, a) := by
      rw [Prod.ext_iff]
      exact ⟨hqkey, hq2⟩
    have hmem : (key, a) ∈ c.live := hqeq ▸ hqlive
    have hrestne : ∀ p ∈ rest, p ≠ (key, a) := by
      intro p hp hcon
      have hpa : p.2 = a := by rw [hcon]
      have : p.2 ∈ rest.map (fun p => p.2) := List.mem_map_of_mem _ hp
      rw [hrest, hpa] at this
      have hna : a ∉ A' := (List.nodup_cons.mp hnd).1
      exact hna this
    rw [abortAllLoop, abortMPU_mem hf hmem]
    dsimp only
    have hfil₁ : ((c.live.filter (fun p => p ≠ (key, a))).filter
        (fun p => p.1 = key)).map (fun p => p.2) = A' := by
      have hcomm : (c.live.filter (fun p => p ≠ (key, a))).filter
          (fun p => p.1 = key) =
          (c.live.filter (fun p => p.1 = key)).filter
            (fun p => p ≠ (key, a)) := by
        rw [List.filter_filter, List.filter_filter]
        apply List.filter_congr
        intro p _
        exact Bool.and_comm _ _
      have hqrest : (q :: rest).filter (fun p => p ≠ (key, a)) = rest := by
        rw [List.filter_cons, if_neg (by simp [hqeq])]
        rw [List.filter_eq_self]
        intro p hp
        simpa using hrestne p hp
      rw [hcomm, hfil, hqrest, hrest]
    obtain ⟨k, hk⟩ := ih
      { c with clock := c.clock + 1,
               live := c.live.filter (fun p => p ≠ (key, a)) }
      hf hfil₁ (List.nodup_cons.mp hnd).2
    rw [hk]
    dsimp only
    have hlive2 : (c.live.filter (fun p => p ≠ (key, a))).filter
        (fun p => p.1 ≠ key) = c.live.filter (fun p => p.1 ≠ key) := by
      rw [List.filter_filter]
      apply List.filter_congr
      intro p _
      by_cases hpk : p.1 = key
      · simp [hpk]
      · have hpne : p ≠ (key, a) := by
          intro hcon
          exact hpk (by rw [hcon])
        simp [hpk, hpne]
    refine ⟨k + 1, ?_⟩
    have hclock : c.clock + 1 + k = c.clock + (k + 1) := by omega
    rw [hlive2, hclock]

theorem abortAllLoop_dead {key : String} :
    ∀ (B : List Nat) (c : S3Client), c.failures = [] →
      (∀ id, (key, id) ∉ c.live) →
      ∃ k, abortAllLoop key B c = ({ c with clock := c.clock + k }, .ok []) := by
  intro B
  induction B with
  | nil =>
    intro c hf _
    exact ⟨0, by rw [abortAllLoop]; simp⟩
  | cons b B' ih =>
    intro c hf hdead
    rw [abortAllLoop, abortMPU_not_mem hf (hdead b)]
    dsimp only
    obtain ⟨k, hk⟩ := ih { c with clock := c.clock + 1 } hf hdead
    rw [hk]
    refine ⟨k + 1, ?_⟩
    have hclock : c.clock + 1 + k = c.clock + (k + 1) := by omega
    rw [hclock]

theorem abortAllLoop_append_ok {key : String} (A B : List Nat) :
    ∀ (c c₁ c₂ : S3Client) (r₁ r₂ : List Nat),
      abortAllLoop key A c = (c₁, .ok r₁) →
      abortAllLoop key B c₁ = (c₂, .ok r₂) →
      abortAllLoop key (A ++ B) c = (c₂, .ok (r₁ ++ r₂)) := by
  induction A with
  | nil =>
    intro c c₁ c₂ r₁ r₂ h hB
    rw [abortAllLoop] at h
    injection h with h1 h2
    injection h2 with h3
    subst h1 h3
    simpa using hB
  | cons a A' ih =>
    intro c c₁ c₂ r₁ r₂ h hB
    rw [abortAllLoop] at h
    rw [List.cons_append, abortAllLoop]
    rcases habort : abortMPU c key a with ⟨c', r⟩
    rw [habort] at h
    cases r with
    | error e =>
      cases e with
      | noSuchUpload =>
        dsimp only at h ⊢
        exact ih c' c₁ c₂ r₁ r₂ h hB
      | serviceError =>
        dsimp only at h
        injection h with h1 h2
        exact absurd h2 (by simp)
    | ok u =>
      cases u
      dsimp only at h ⊢
      rcases hA' : abortAllLoop key A' c' with ⟨c'', r'⟩
      rw [hA'] at h
      cases r' with
      | error e =>
        dsimp only at h
        injection h with h1 h2
        exact absurd h2 (by simp)
      | ok abs =>
        dsimp only at h
        injection h with h1 h2
        injection h2 with h3
        subst h1
        subst h3
        rw [ih c' c'' c₂ abs r₂ hA' hB]
        simp

/-- `abort_all` on a healthy store: it returns, in listing order, exactly
the ids of the live uploads for the key (phantom ids raise `NoSuchUpload`
mid-abort and are swallowed), and afterwards no live upload for the key
remains, every other key's uploads being untouched. -/
theorem abort_all_ok {key : String} (c : S3Client) (hf : c.failures = [])
    (hnd : ((c.live.filter (fun p => p.1 = key)).map (fun p => p.2)).Nodup) :
    ∃ k, abort_all c key =
      ({ c with clock := c.clock + k,
                live := c.live.filter (fun p => p.1 ≠ key) },
       .ok ((c.live.filter (fun p => p.1 = key)).map (fun p => p.2))) := by
  rw [abort_all, listMPU_ok hf]
  dsimp only
  rw [List.filter_append, List.map_append]
  obtain ⟨k₁, hk₁⟩ := abortAllLoop_live_pass
    ((c.live.filter (fun p => p.1 = key)).map (fun p => p.2))
    { c with clock := c.clock + 1 } hf rfl hnd
  have hdead : ∀ id, (key, id) ∉
      ({ c with clock := c.clock + 1 + k₁,
                live := c.live.filter (fun p => p.1 ≠ key) } : S3Client).live := by
    intro id hmem
    have := List.of_mem_filter hmem
    simp at this
  obtain ⟨k₂, hk₂⟩ := abortAllLoop_dead
    ((c.phantom.filter (fun p => p.1 = key)).map (fun p => p.2))
    { c with clock := c.clock + 1 + k₁,
             live := c.live.filter (fun p => p.1 ≠ key) } hf hdead
  have happ := abortAllLoop_append_ok
    ((c.live.filter (fun p => p.1 = key)).map (fun p => p.2))
    ((c.phantom.filter (fun p => p.1 = key)).map (fun p => p.2))
    { c with clock := c.clock + 1 } _ _ _ _ hk₁ hk₂
  rw [happ]
  refine ⟨1 + k₁ + k₂, ?_⟩
  have hclock : c.clock + 1 + k₁ + k₂ = c.clock + (1 + k₁ + k₂) := by omega
  rw [List.append_nil, hclock]

/-! ### Part bookkeeping -/

theorem mkRecords_mem {id : Nat} :
    ∀ (cs : List Bytes) (i : Nat) (r : Nat × Nat × Bytes),
      r ∈ mkRecords id i cs → r.1 = id ∧ i ≤ r.2.1 ∧ r.2.1 < i + cs.length := by
  intro cs
  induction cs with
  | nil => intro i r h; simp [mkRecords] at h
  | cons ch rest ih =>
    intro i r h
    simp only [mkRecords, List.mem_cons] at h
    rcases h with h | h
    · subst h
      simp
    · obtain ⟨h1, h2, h3⟩ := ih (i + 1) r h
      refine ⟨h1, by omega, by simp [List.length_cons]; omega⟩

theorem mkParts_map_fst {id : Nat} :
    ∀ (cs : List Bytes) (i : Nat),
      (mkParts id i cs).map (fun p => p.1) = List.range' i cs.length := by
  intro cs
  induction cs with
  | nil => intro i; simp [mkParts]
  | cons ch rest ih =>
    intro i
    simp only [mkParts, List.map_cons, List.length_cons, List.range'_succ]
    rw [ih (i + 1)]

theorem mkParts_snd {id : Nat} :
    ∀ (cs : List Bytes) (i : Nat) (p : Nat × String),
      p ∈ mkParts id i cs → p.2 = eTagOf id p.1 := by
  intro cs
  induction cs with
  | nil => intro i p h; simp [mkParts] at h
  | cons ch rest ih =>
    intro i p h
    simp only [mkParts, List.mem_cons] at h
    rcases h with h | h
    · subst h; rfl
    · exact ih (i + 1) p h

theorem mkParts_length {id : Nat} :
    ∀ (cs : List Bytes) (i : Nat), (mkParts id i cs).length = cs.length := by
  intro cs
  induction cs with
  | nil => intro i; rfl
  | cons ch rest ih =>
    intro i
    simp only [mkParts, List.length_cons]
    rw [ih (i + 1)]

/-- Retrieving, in part-number order, the parts staged by the chunking
loop gives back exactly the emitted chunks. -/
theorem partData_mkRecords {id : Nat} :
    ∀ (cs : List Bytes) (i : Nat) (old : List (Nat × Nat × Bytes))
      (c : S3Client), c.parts = (mkRecords id i cs).reverse ++ old →
      (mkParts id i cs).map (fun p => partData c id p.1) = cs := by
  intro cs
  induction cs with
  | nil => intro i old c h; simp [mkParts]
  | cons ch rest ih =>
    intro i old c h
    simp only [mkRecords, List.reverse_cons, List.append_assoc,
      List.singleton_append] at h
    simp only [mkParts, List.map_cons]
    congr 1
    · rw [partData, h, List.find?_append]
      have hpref : (mkRecords id (i + 1) rest).reverse.find?
          (fun r => decide (r.1 = id ∧ r.2.1 = i)) = none := by
        rw [List.find?_eq_none]
        intro r hr
        rw [List.mem_reverse] at hr
        obtain ⟨_, h2, _⟩ := mkRecords_mem rest (i + 1) r hr
        simp only [decide_eq_true_eq]
        intro hcon
        omega
      rw [hpref]
      simp
    · exact ih (i + 1) ((id, i, ch) :: old) c h

/-! ### `upload_from_stdout` outcomes on a healthy store -/

theorem upload_from_stdout_completes {key : String} {id C : Nat}
    (c : S3Client) (p : Process) (capture_stderr : Bool)
    (hf : c.failures = []) (hlive : (key, id) ∈ c.live) (hC : 0 < C)
    (hgrace : p.exitsWithinGrace = true) (hrc : p.returncode = 0) :
    upload_from_stdout c key id C p capture_stderr =
      ({ c with
          parts := (mkRecords id 1 (chunkSplit C p.output)).reverse ++ c.parts,
          clock := c.clock + (chunkSplit C p.output).length },
       false,
       .ok (mkParts id 1 (chunkSplit C p.output),
            (if capture_stderr then p.stderrData else []),
            p.output.length)) := by
  rw [upload_from_stdout, uploadChunksLoop_ok hC p.output 1 c hf hlive]
  dsimp only
  rw [hgrace, hrc]
  simp

theorem upload_from_stdout_nonzero_exit {key : String} {id C : Nat}
    (c : S3Client) (p : Process) (capture_stderr : Bool)
    (hf : c.failures = []) (hlive : (key, id) ∈ c.live) (hC : 0 < C)
    (hgrace : p.exitsWithinGrace = true) (hrc : p.returncode ≠ 0) :
    upload_from_stdout c key id C p capture_stderr =
      ({ c with
          parts := (mkRecords id 1 (chunkSplit C p.output)).reverse ++ c.parts,
          clock := c.clock + (chunkSplit C p.output).length },
       false,
       .error (.calledProcessError p.returncode)) := by
  rw [upload_from_stdout, uploadChunksLoop_ok hC p.output 1 c hf hlive]
  dsimp only
  rw [hgrace]
  simp [hrc]

theorem upload_from_stdout_timeout {key : String} {id C : Nat}
    (c : S3Client) (p : Process) (capture_stderr : Bool)
    (hf : c.failures = []) (hlive : (key, id) ∈ c.live) (hC : 0 < C)
    (hgrace : p.exitsWithinGrace = false) :
    upload_from_stdout c key id C p capture_stderr =
      ({ c with
          parts := (mkRecords id 1 (chunkSplit C p.output)).reverse ++ c.parts,
          clock := c.clock + (chunkSplit C p.output).length },
       true,
       .error .timeoutExpired) := by
  rw [upload_from_stdout, uploadChunksLoop_ok hC p.output 1 c hf hlive]
  dsimp only
  rw [hgrace]
  simp

/-! ### `mongo_dump_to_s3` walks -/

theorem init_eq_some {bucket key : String} {chunk_size buffer_size : Option Nat}
    (hcs : PART_MINIMUM ≤ pyOr chunk_size DEFAULT_CHUNK_SIZE) :
    S3MultipartUpload.init bucket key chunk_size buffer_size =
      some { bucket := bucket, key := key,
             chunk_size := pyOr chunk_size DEFAULT_CHUNK_SIZE,
             buffer_size := pyOr buffer_size DEFAULT_BUFFER_SIZE } := by
  rw [S3MultipartUpload.init, if_pos hcs]

theorem mongo_dump_to_s3_success
    (c : S3Client) (dump : MongoDumpProc) (uriDb collection bucket key : String)
    (db : Option String) (chunk_size buffer_size : Option Nat) (elapsed : ℚ)
    (hf : c.failures = [])
    (hnd : ((c.live.filter (fun p => p.1 = key)).map (fun p => p.2)).Nodup)
    (hgrace : dump.exitsWithinGrace = true) (hrc : dump.returncode = 0)
    (hcs : PART_MINIMUM ≤ pyOr chunk_size DEFAULT_CHUNK_SIZE) :
    ∃ c' : S3Client,
      mongo_dump_to_s3 c dump uriDb collection bucket key db chunk_size
          buffer_size elapsed =
        (c', .ok { bucket := bucket, collection := collection,
                   db := pyOrStr db uriDb, key := key,
                   num_docs := dump.num_docs, time := some elapsed,
                   size := some dump.output.length }) ∧
      c'.objects.head? = some (key, dump.output) := by
  have hC : 0 < pyOr chunk_size DEFAULT_CHUNK_SIZE :=
    lt_of_lt_of_le (by norm_num [PART_MINIMUM]) hcs
  rw [mongo_dump_to_s3, init_eq_some hcs]
  dsimp only
  obtain ⟨k₁, hk₁⟩ := @abort_all_ok key c hf hnd
  rw [hk₁]
  dsimp only
  rw [create, createMPU_ok]
  dsimp only
  rw [dumpBody, upload_from_stream, uploadChunksLoop_ok hC dump.output 1]
  dsimp only
  rw [hgrace, hrc]
  simp only [ne_eq, not_true_eq_false, if_false, ite_true, if_true,
    decide_True, not_false_eq_true]
  rw [complete, completeMPU_ok]
  dsimp only
  refine ⟨_, rfl, ?_⟩
  simp only [List.head?_cons, Option.some.injEq, Prod.mk.injEq, true_and]
  rw [partData_mkRecords (chunkSplit (pyOr chunk_size DEFAULT_CHUNK_SIZE)
    dump.output) 1 _ _ rfl]
  exact chunkSplit_flatten hC dump.output
  all_goals first
    | exact hf
    | exact List.mem_cons_self _ _

theorem mongo_dump_to_s3_failure
    (c : S3Client) (dump : MongoDumpProc) (uriDb collection bucket key : String)
    (db : Option String) (chunk_size buffer_size : Option Nat) (elapsed : ℚ)
    (hf : c.failures = [])
    (hnd : ((c.live.filter (fun p => p.1 = key)).map (fun p => p.2)).Nodup)
    (hfail : dump.exitsWithinGrace = false ∨ dump.returncode ≠ 0)
    (hcs : PART_MINIMUM ≤ pyOr chunk_size DEFAULT_CHUNK_SIZE) :
    ∃ c' : S3Client,
      mongo_dump_to_s3 c dump uriDb collection bucket key db chunk_size
          buffer_size elapsed =
        (c', .error (if dump.exitsWithinGrace then .dumpExit dump.returncode
                     else .dumpTimeout)) ∧
      c'.objects = c.objects ∧ (∀ id, (key, id) ∉ c'.live) := by
  have hC : 0 < pyOr chunk_size DEFAULT_CHUNK_SIZE :=
    lt_of_lt_of_le (by norm_num [PART_MINIMUM]) hcs
  rw [mongo_dump_to_s3, init_eq_some hcs]
  dsimp only
  obtain ⟨k₁, hk₁⟩ := @abort_all_ok key c hf hnd
  rw [hk₁]
  dsimp only
  rw [create, createMPU_ok]
  dsimp only
  rw [dumpBody, upload_from_stream, uploadChunksLoop_ok hC dump.output 1]
  dsimp only
  have hinner : (c.live.filter (fun p => p.1 ≠ key)).filter
      (fun p => p.1 = key) = [] := by
    rw [List.filter_eq_nil]
    intro p hp
    have := List.of_mem_filter hp
    simp at this
    simp [this]
  have hfinish : ∀ (cC : S3Client) (E : BackupError),
      cC.failures = [] →
      cC.live = (key, c.nextId) :: c.live.filter (fun p => p.1 ≠ key) →
      cC.objects = c.objects →
      ∃ c' : S3Client,
        (match abort_all cC key with
         | (c₄, .error e₂) => (c₄, .error (.s3Error e₂))
         | (c₄, .ok _) => (c₄, (.error E : Except BackupError BackupStats))) =
          (c', .error E) ∧
        c'.objects = c.objects ∧ (∀ id, (key, id) ∉ c'.live) := by
    intro cC E hfC hliveC hobjC
    have hndC : ((cC.live.filter (fun p => p.1 = key)).map
        (fun p => p.2)).Nodup := by
      rw [hliveC]
      simp [List.filter_cons, hinner]
    obtain ⟨k₂, hk₂⟩ := @abort_all_ok key cC hfC hndC
    rw [hk₂]
    dsimp only
    refine ⟨_, rfl, hobjC, ?_⟩
    intro id hmem
    have := List.of_mem_filter hmem
    simp at this
  by_cases hgb : dump.exitsWithinGrace = true
  · have hrc : dump.returncode ≠ 0 := by
      rcases hfail with h | h
      · rw [hgb] at h; exact absurd h (by simp)
      · exact h
    rw [hgb]
    simp only [ne_eq, hrc, not_false_eq_true, if_true, ite_true]
    refine hfinish _ _ ?_ ?_ ?_
    · exact hf
    · rfl
    · rfl
  · have hg : dump.exitsWithinGrace = false := by
      revert hgb
      cases dump.exitsWithinGrace <;> simp
    rw [hg]
    simp only [Bool.false_eq_true, if_false]
    refine hfinish _ _ ?_ ?_ ?_
    · exact hf
    · rfl
    · rfl
  all_goals first
    | exact hf
    | exact List.mem_cons_self _ _

/-- A streaming failure: the store raises the service error on the first
part upload (its tick index, `c.clock + 2`, is the one scheduled
failure), the handler's `abort_all` succeeds, and `mongo_dump_to_s3`
re-raises the original streaming error with no object completed and no
live transfer left for the key. -/
theorem mongo_dump_to_s3_stream_error
    (c : S3Client) (dump : MongoDumpProc) (uriDb collection bucket key : String)
    (db : Option String) (chunk_size buffer_size : Option Nat) (elapsed : ℚ)
    (hsched : c.failures = [c.clock + 2])
    (hlv : ∀ p ∈ c.live, p.1 ≠ key)
    (hph : ∀ p ∈ c.phantom, p.1 ≠ key)
    (hout : dump.output ≠ [])
    (hcs : PART_MINIMUM ≤ pyOr chunk_size DEFAULT_CHUNK_SIZE) :
    ∃ c' : S3Client,
      mongo_dump_to_s3 c dump uriDb collection bucket key db chunk_size
          buffer_size elapsed =
        (c', .error (.s3Error .serviceError)) ∧
      c'.objects = c.objects ∧ (∀ id, (key, id) ∉ c'.live) := by
  have hC : 0 < pyOr chunk_size DEFAULT_CHUNK_SIZE :=
    lt_of_lt_of_le (by norm_num [PART_MINIMUM]) hcs
  have hrest : (c.live ++ c.phantom).filter (fun p => p.1 = key) = [] := by
    rw [List.filter_eq_nil]
    intro p hp
    rcases List.mem_append.mp hp with h | h
    · simpa using hlv p h
    · simpa using hph p h
  rw [mongo_dump_to_s3, init_eq_some hcs]
  dsimp only
  rw [abort_all, listMPU_miss]
  dsimp only
  rw [hrest]
  simp only [List.map_nil]
  rw [abortAllLoop]
  dsimp only
  rw [create, createMPU_miss]
  dsimp only
  rw [dumpBody, upload_from_stream, uploadChunksLoop_eq]
  have htake : dump.output.take (pyOr chunk_size DEFAULT_CHUNK_SIZE) ≠ [] := by
    intro hnil
    rw [List.take_eq_nil_iff] at hnil
    rcases hnil with h | h
    · omega
    · exact hout h
  rw [if_neg htake, uploadPart_hit]
  dsimp only
  rw [abort_all, listMPU_miss]
  dsimp only
  have hfil2 : (((key, c.nextId) :: c.live ++ c.phantom).filter
      (fun p => p.1 = key)).map (fun p => p.2) = [c.nextId] := by
    have hsplit : ((key, c.nextId) :: c.live ++ c.phantom) =
        (key, c.nextId) :: (c.live ++ c.phantom) := rfl
    rw [hsplit, List.filter_cons, if_pos (by simp), hrest]
    rfl
  rw [hfil2, abortAllLoop]
  rw [abortMPU_mem_miss]
  dsimp only
  rw [abortAllLoop]
  dsimp only
  refine ⟨_, rfl, rfl, ?_⟩
  · intro id hmem
    have h1 := List.of_mem_filter hmem
    have h2 := List.mem_of_mem_filter hmem
    simp only [decide_eq_true_eq] at h1
    rcases List.mem_cons.mp h2 with h | h
    · exact h1 h
    · exact hlv _ h rfl
  all_goals dsimp only
  all_goals first
    | exact List.mem_cons_self _ _
    | (rw [hsched]; simp only [List.mem_singleton]; try omega)

/-! ### Claim theorems -/

/-- C8 (counterexample): constructing an `S3MultipartUpload` with the
explicit chunk size 0 — which is below the 6,000,000-byte minimum —
succeeds (resolving to the 15,000,000-byte default) instead of failing at
construction time, because `0` is falsy in `chunk_size or 15_000_000`. -/
theorem claim_C8_counterexample :
    S3MultipartUpload.init "bucket" "key" (some 0) none =
      some { bucket := "bucket", key := "key", chunk_size := 15000000,
             buffer_size := 50000000 } ∧
    (0 : Nat) < PART_MINIMUM := by
  exact ⟨rfl, by decide⟩

/-- C8 (amended): whenever the constructor returns, the resolved chunk
size satisfies `chunk_size ≥ 6,000,000`; and an explicit **nonzero**
chunk size below this minimum fails at construction time (the
`AssertionError` fires before any store call); an explicit chunk size of
0 is treated as unset and resolves to the default instead. -/
theorem claim_C8 (bucket key : String) (chunk_size buffer_size : Option Nat) :
    (∀ u, S3MultipartUpload.init bucket key chunk_size buffer_size = some u →
      PART_MINIMUM ≤ u.chunk_size) ∧
    (∀ n, 0 < n → n < PART_MINIMUM →
      S3MultipartUpload.init bucket key (some n) buffer_size = none) := by
  constructor
  · intro u hu
    rw [S3MultipartUpload.init] at hu
    by_cases h : PART_MINIMUM ≤ pyOr chunk_size DEFAULT_CHUNK_SIZE
    · rw [if_pos h] at hu
      injection hu with hu
      subst hu
      exact h
    · rw [if_neg h] at hu
      exact absurd hu (by simp)
  · intro n hn hlt
    cases n with
    | zero => omega
    | succ m =>
      rw [S3MultipartUpload.init]
      have hpy : pyOr (some (m + 1)) DEFAULT_CHUNK_SIZE = m + 1 := rfl
      rw [hpy, if_neg (by omega)]

/-- C8 (witness): a concrete nonzero chunk size below the minimum is
rejected at construction time. -/
theorem claim_C8_witness :
    (0 : Nat) < 5000000 ∧ 5000000 < PART_MINIMUM ∧
    S3MultipartUpload.init "bucket" "key" (some 5000000) none = none :=
  ⟨by decide, by decide,
   (claim_C8 "bucket" "key" (some 5000000) none).2 5000000 (by decide) (by decide)⟩

/-- C10: a falsy `chunk_size` (`None` or `0`) silently resolves to the
15,000,000-byte default and a falsy `buffer_size` to the 50,000,000-byte
default, so the minimum-part-size assertion only sees the resolved value:
`chunk_size=0` succeeds with the default rather than being rejected. -/
theorem claim_C10 (bucket key : String) :
    S3MultipartUpload.init bucket key none none =
      some { bucket := bucket, key := key, chunk_size := DEFAULT_CHUNK_SIZE,
             buffer_size := DEFAULT_BUFFER_SIZE } ∧
    S3MultipartUpload.init bucket key (some 0) (some 0) =
      some { bucket := bucket, key := key, chunk_size := DEFAULT_CHUNK_SIZE,
             buffer_size := DEFAULT_BUFFER_SIZE } ∧
    DEFAULT_CHUNK_SIZE = 15000000 ∧ DEFAULT_BUFFER_SIZE = 50000000 := by
  exact ⟨rfl, rfl, rfl, rfl⟩

/-- C1: on a healthy store, for a producer stream of `L` bytes and chunk
size `C ≥ 6,000,000`, the chunking loop of `upload_from_stdout` succeeds
and emits exactly the chunks `chunkSplit C data`: their number is
`⌈L / C⌉ = (L + C - 1) / C`, every chunk but the last is exactly `C`
bytes, the last is `L mod C` bytes (or `C` when `L` is a nonzero multiple
of `C`), and their concatenation is the original stream byte-for-byte. -/
theorem claim_C1 (c : S3Client) (key : String) (id C : Nat) (data : Bytes)
    (hf : c.failures = []) (hlive : (key, id) ∈ c.live)
    (hC : PART_MINIMUM ≤ C) :
    ∃ c' : S3Client,
      uploadChunksLoop c key id C 1 data =
        (c', .ok (mkParts id 1 (chunkSplit C data), data.length)) ∧
      c'.parts = (mkRecords id 1 (chunkSplit C data)).reverse ++ c.parts ∧
      (chunkSplit C data).length = (data.length + C - 1) / C ∧
      (∀ ch ∈ (chunkSplit C data).dropLast, ch.length = C) ∧
      (data ≠ [] → ∃ last, (chunkSplit C data).getLast? = some last ∧
        last.length = (if data.length % C = 0 then C
                       else data.length % C)) ∧
      (chunkSplit C data).flatten = data := by
  have hC0 : 0 < C := lt_of_lt_of_le (by norm_num [PART_MINIMUM]) hC
  refine ⟨_, uploadChunksLoop_ok hC0 data 1 c hf hlive, rfl,
    chunkSplit_length hC0 data, chunkSplit_dropLast hC0 data,
    fun hd => chunkSplit_getLast hC0 data hd, chunkSplit_flatten hC0 data⟩

/-- C1 (witness): a concrete run — three bytes with the minimum chunk
size — emits one part holding the whole input. -/
theorem claim_C1_witness :
    (⟨[("k", 7)], [], [], [], 8, 0, []⟩ : S3Client).failures = [] ∧
    ("k", 7) ∈ (⟨[("k", 7)], [], [], [], 8, 0, []⟩ : S3Client).live ∧
    PART_MINIMUM ≤ 6000000 ∧
    (∃ c' : S3Client,
      uploadChunksLoop ⟨[("k", 7)], [], [], [], 8, 0, []⟩ "k" 7 6000000 1
          [10, 20, 30] =
        (c', .ok (mkParts 7 1 (chunkSplit 6000000 [10, 20, 30]),
                  ([10, 20, 30] : Bytes).length)) ∧
      c'.parts = (mkRecords 7 1 (chunkSplit 6000000 [10, 20, 30])).reverse ++
        (⟨[("k", 7)], [], [], [], 8, 0, []⟩ : S3Client).parts ∧
      (chunkSplit 6000000 [10, 20, 30]).length =
        (([10, 20, 30] : Bytes).length + 6000000 - 1) / 6000000 ∧
      (∀ ch ∈ (chunkSplit 6000000 [10, 20, 30]).dropLast,
        ch.length = 6000000) ∧
      (([10, 20, 30] : Bytes) ≠ [] →
        ∃ last, (chunkSplit 6000000 [10, 20, 30]).getLast? = some last ∧
          last.length = (if ([10, 20, 30] : Bytes).length % 6000000 = 0
                         then 6000000
                         else ([10, 20, 30] : Bytes).length % 6000000)) ∧
      (chunkSplit 6000000 [10, 20, 30]).flatten = [10, 20, 30]) :=
  ⟨rfl, by simp, by decide,
   claim_C1 ⟨[("k", 7)], [], [], [], 8, 0, []⟩ "k" 7 6000000 [10, 20, 30]
     rfl (by simp) (by decide)⟩

/-- C9 (counterexample): for a zero-byte input the chunking loop emits
zero parts — it stops at the `b''` sentinel without uploading an empty
final part, so "exactly one zero-length final part" is false. -/
theorem claim_C9_counterexample :
    uploadChunksLoop ⟨[("k", 3)], [], [], [], 4, 0, []⟩ "k" 3 15000000 1 [] =
      (⟨[("k", 3)], [], [], [], 4, 0, []⟩, .ok ([], 0)) ∧
    ([] : List (Nat × String)).length ≠ 1 := by
  exact ⟨rfl, by decide⟩

/-- C9 (amended): when end-of-stream is reached, the loop emits the
remaining accumulated bytes as one final, possibly-short part only when
they are nonempty — every emitted part is nonempty and nothing is lost —
while a zero-byte remainder ends the loop with no further part; in
particular, for an input of zero bytes zero parts are emitted and nothing
is uploaded. -/
theorem claim_C9 (c : S3Client) (key : String) (id C : Nat) (data : Bytes)
    (hf : c.failures = []) (hlive : (key, id) ∈ c.live)
    (hC : PART_MINIMUM ≤ C) :
    ∃ c' : S3Client,
      uploadChunksLoop c key id C 1 data =
        (c', .ok (mkParts id 1 (chunkSplit C data), data.length)) ∧
      (∀ ch ∈ chunkSplit C data, ch ≠ []) ∧
      (chunkSplit C data).flatten = data ∧
      (data = [] → mkParts id 1 (chunkSplit C data) = [] ∧
        c'.parts = c.parts) := by
  have hC0 : 0 < C := lt_of_lt_of_le (by norm_num [PART_MINIMUM]) hC
  refine ⟨_, uploadChunksLoop_ok hC0 data 1 c hf hlive,
    chunkSplit_ne_nil hC0 data, chunkSplit_flatten hC0 data, ?_⟩
  intro hd
  subst hd
  rw [chunkSplit_nil]
  exact ⟨rfl, rfl⟩

/-- C9 (amended, witness): a concrete zero-byte run uploads nothing. -/
theorem claim_C9_witness :
    (⟨[("k", 3)], [], [], [], 4, 0, []⟩ : S3Client).failures = [] ∧
    ("k", 3) ∈ (⟨[("k", 3)], [], [], [], 4, 0, []⟩ : S3Client).live ∧
    PART_MINIMUM ≤ 15000000 ∧
    (∃ c' : S3Client,
      uploadChunksLoop ⟨[("k", 3)], [], [], [], 4, 0, []⟩ "k" 3 15000000 1 [] =
        (c', .ok (mkParts 3 1 (chunkSplit 15000000 []), ([] : Bytes).length)) ∧
      (∀ ch ∈ chunkSplit 15000000 ([] : Bytes), ch ≠ []) ∧
      (chunkSplit 15000000 ([] : Bytes)).flatten = [] ∧
      (([] : Bytes) = [] → mkParts 3 1 (chunkSplit 15000000 ([] : Bytes)) = [] ∧
        c'.parts = (⟨[("k", 3)], [], [], [], 4, 0, []⟩ : S3Client).parts)) :=
  ⟨rfl, by simp, by decide,
   claim_C9 ⟨[("k", 3)], [], [], [], 4, 0, []⟩ "k" 3 15000000 []
     rfl (by simp) (by decide)⟩

/-- C5: on a healthy store, a successful `upload_from_stdout` run uploads
the i-th emitted chunk with part number exactly i — the numbers in the
returned parts list are `1, 2, ..., N` in order, with no gaps and no
duplicates — and each entry pairs its part number with the ETag the store
returned for that part; the staged records pair the k-th chunk with
number k. -/
theorem claim_C5 (c : S3Client) (key : String) (id C : Nat) (p : Process)
    (capture_stderr : Bool)
    (hf : c.failures = []) (hlive : (key, id) ∈ c.live)
    (hC : PART_MINIMUM ≤ C)
    (hgrace : p.exitsWithinGrace = true) (hrc : p.returncode = 0) :
    ∃ (c' : S3Client) (parts : List (Nat × String)),
      upload_from_stdout c key id C p capture_stderr =
        (c', false, .ok (parts, (if capture_stderr then p.stderrData else []),
                         p.output.length)) ∧
      parts.map (fun q => q.1) = List.range' 1 parts.length ∧
      (∀ q ∈ parts, q.2 = eTagOf id q.1) ∧
      parts = mkParts id 1 (chunkSplit C p.output) ∧
      c'.parts = (mkRecords id 1 (chunkSplit C p.output)).reverse ++ c.parts := by
  have hC0 : 0 < C := lt_of_lt_of_le (by norm_num [PART_MINIMUM]) hC
  refine ⟨_, _,
    upload_from_stdout_completes c p capture_stderr hf hlive hC0 hgrace hrc,
    ?_, ?_, rfl, rfl⟩
  · rw [mkParts_length, ← mkParts_map_fst (chunkSplit C p.output) 1]
  · exact mkParts_snd (chunkSplit C p.output) 1

/-- C5 (witness): a concrete successful run returns parts numbered
`[1]` carrying the store's ETag. -/
theorem claim_C5_witness :
    (⟨[("k", 5)], [], [], [], 6, 0, []⟩ : S3Client).failures = [] ∧
    ("k", 5) ∈ (⟨[("k", 5)], [], [], [], 6, 0, []⟩ : S3Client).live ∧
    PART_MINIMUM ≤ 6000000 ∧
    (⟨[1, 2], [], true, 0⟩ : Process).exitsWithinGrace = true ∧
    (⟨[1, 2], [], true, 0⟩ : Process).returncode = 0 ∧
    (∃ (c' : S3Client) (parts : List (Nat × String)),
      upload_from_stdout ⟨[("k", 5)], [], [], [], 6, 0, []⟩ "k" 5 6000000
          ⟨[1, 2], [], true, 0⟩ false =
        (c', false, .ok (parts,
          (if false then (⟨[1, 2], [], true, 0⟩ : Process).stderrData else []),
          (⟨[1, 2], [], true, 0⟩ : Process).output.length)) ∧
      parts.map (fun q => q.1) = List.range' 1 parts.length ∧
      (∀ q ∈ parts, q.2 = eTagOf 5 q.1) ∧
      parts = mkParts 5 1 (chunkSplit 6000000 (⟨[1, 2], [], true, 0⟩ : Process).output) ∧
      c'.parts = (mkRecords 5 1
        (chunkSplit 6000000 (⟨[1, 2], [], true, 0⟩ : Process).output)).reverse ++
        (⟨[("k", 5)], [], [], [], 6, 0, []⟩ : S3Client).parts) :=
  ⟨rfl, by simp, by decide, rfl, rfl,
   claim_C5 ⟨[("k", 5)], [], [], [], 6, 0, []⟩ "k" 5 6000000
     ⟨[1, 2], [], true, 0⟩ false rfl (by simp) (by decide) rfl rfl⟩

/-- C6: when the producer closes its stream and is reaped within the
grace period, `upload_from_stdout` raises `CalledProcessError` carrying
the nonzero exit status instead of returning a parts list, and returns
normally when the exit status is zero. -/
theorem claim_C6 (c : S3Client) (key : String) (id C : Nat) (p : Process)
    (capture_stderr : Bool)
    (hf : c.failures = []) (hlive : (key, id) ∈ c.live)
    (hC : PART_MINIMUM ≤ C)
    (hgrace : p.exitsWithinGrace = true) :
    (p.returncode ≠ 0 →
      ∃ c' : S3Client, upload_from_stdout c key id C p capture_stderr =
        (c', false, .error (.calledProcessError p.returncode))) ∧
    (p.returncode = 0 →
      ∃ (c' : S3Client) (parts : List (Nat × String)) (stderr : Bytes)
        (size : Nat),
        upload_from_stdout c key id C p capture_stderr =
          (c', false, .ok (parts, stderr, size))) := by
  have hC0 : 0 < C := lt_of_lt_of_le (by norm_num [PART_MINIMUM]) hC
  constructor
  · intro hrc
    exact ⟨_, upload_from_stdout_nonzero_exit c p capture_stderr hf hlive hC0
      hgrace hrc⟩
  · intro hrc
    exact ⟨_, _, _, _, upload_from_stdout_completes c p capture_stderr hf hlive
      hC0 hgrace hrc⟩

/-- C6 (witness): a producer exiting with status 7 raises
`CalledProcessError 7`; the same producer with status 0 returns
normally. -/
theorem claim_C6_witness :
    (⟨[("k", 5)], [], [], [], 6, 0, []⟩ : S3Client).failures = [] ∧
    ("k", 5) ∈ (⟨[("k", 5)], [], [], [], 6, 0, []⟩ : S3Client).live ∧
    PART_MINIMUM ≤ 6000000 ∧
    (⟨[1], [], true, 7⟩ : Process).exitsWithinGrace = true ∧
    (⟨[1], [], true, 7⟩ : Process).returncode ≠ 0 ∧
    (∃ c' : S3Client,
      upload_from_stdout ⟨[("k", 5)], [], [], [], 6, 0, []⟩ "k" 5 6000000
          ⟨[1], [], true, 7⟩ false =
        (c', false,
         .error (.calledProcessError (⟨[1], [], true, 7⟩ : Process).returncode))) :=
  ⟨rfl, by simp, by decide, rfl, by decide,
   (claim_C6 ⟨[("k", 5)], [], [], [], 6, 0, []⟩ "k" 5 6000000
     ⟨[1], [], true, 7⟩ false rfl (by simp) (by decide) rfl).1 (by decide)⟩

/-- C7: the bounded post-stream wait — 1.0 second by default — is the
only source of `TimeoutExpired`: on a healthy store the run raises
`TimeoutExpired` exactly when the producer fails to exit within the grace
period (never because of the reads or part uploads, whatever the stream
length), and in that case the process is forcibly terminated
(`process.terminate()` is called, the returned flag). -/
theorem claim_C7 (c : S3Client) (key : String) (id C : Nat) (p : Process)
    (capture_stderr : Bool)
    (hf : c.failures = []) (hlive : (key, id) ∈ c.live)
    (hC : PART_MINIMUM ≤ C) :
    ((upload_from_stdout c key id C p capture_stderr).2.2 =
        .error .timeoutExpired ↔ p.exitsWithinGrace = false) ∧
    (p.exitsWithinGrace = false →
      ∃ c' : S3Client, upload_from_stdout c key id C p capture_stderr =
        (c', true, .error .timeoutExpired)) ∧
    graceTimeoutSeconds = 1 := by
  have hC0 : 0 < C := lt_of_lt_of_le (by norm_num [PART_MINIMUM]) hC
  refine ⟨?_, ?_, rfl⟩
  · constructor
    · intro h
      by_cases hg : p.exitsWithinGrace = true
      · exfalso
        by_cases hrc : p.returncode = 0
        · rw [upload_from_stdout_completes c p capture_stderr hf hlive hC0
            hg hrc] at h
          exact absurd h (by simp)
        · rw [upload_from_stdout_nonzero_exit c p capture_stderr hf hlive hC0
            hg hrc] at h
          exact absurd h (by simp)
      · exact Bool.not_eq_true _ ▸ hg
    · intro hg
      rw [upload_from_stdout_timeout c p capture_stderr hf hlive hC0 hg]
  · intro hg
    exact ⟨_, upload_from_stdout_timeout c p capture_stderr hf hlive hC0 hg⟩

/-- C7 (witness): a producer that never exits within the grace period
triggers termination and `TimeoutExpired` on a concrete run. -/
theorem claim_C7_witness :
    (⟨[("k", 5)], [], [], [], 6, 0, []⟩ : S3Client).failures = [] ∧
    ("k", 5) ∈ (⟨[("k", 5)], [], [], [], 6, 0, []⟩ : S3Client).live ∧
    PART_MINIMUM ≤ 6000000 ∧
    (⟨[1], [], false, 0⟩ : Process).exitsWithinGrace = false ∧
    (∃ c' : S3Client,
      upload_from_stdout ⟨[("k", 5)], [], [], [], 6, 0, []⟩ "k" 5 6000000
          ⟨[1], [], false, 0⟩ false =
        (c', true, .error .timeoutExpired)) :=
  ⟨rfl, by simp, by decide, rfl,
   (claim_C7 ⟨[("k", 5)], [], [], [], 6, 0, []⟩ "k" 5 6000000
     ⟨[1], [], false, 0⟩ false rfl (by simp) (by decide)).2.1 rfl⟩

/-- C3: on a healthy store, `abort_all` returns without error even when
the listing reports uploads that no longer exist (their per-id
`NoSuchUpload` is swallowed); the returned list is exactly the ids of the
pre-existing live uploads for the key — the ones successfully aborted —
after which zero live uploads remain for that key (other keys are
untouched); and with no live upload for the key it returns `[]`. -/
theorem claim_C3 (c : S3Client) (key : String)
    (hf : c.failures = [])
    (hnd : ((c.live.filter (fun p => p.1 = key)).map (fun p => p.2)).Nodup) :
    ∃ (c' : S3Client) (ids : List Nat),
      abort_all c key = (c', .ok ids) ∧
      ids = (c.live.filter (fun p => p.1 = key)).map (fun p => p.2) ∧
      (∀ id, (key, id) ∉ c'.live) ∧
      (∀ p ∈ c.live, p.1 ≠ key → p ∈ c'.live) ∧
      ((∀ id, (key, id) ∉ c.live) → ids = []) := by
  obtain ⟨k, hk⟩ := @abort_all_ok key c hf hnd
  refine ⟨_, _, hk, rfl, ?_, ?_, ?_⟩
  · intro id hmem
    have := List.of_mem_filter hmem
    simp at this
  · intro p hp hne
    exact List.mem_filter.mpr ⟨hp, by simp [hne]⟩
  · intro hnone
    have hfil : c.live.filter (fun p => p.1 = key) = [] := by
      rw [List.filter_eq_nil]
      intro p hp
      simp only [decide_eq_true_eq]
      intro hcon
      have hpe : p = (key, p.2) := Prod.ext_iff.mpr ⟨hcon, rfl⟩
      exact hnone p.2 (hpe ▸ hp)
    rw [hfil]
    rfl

/-- C3 (witness): a concrete store with one live upload for the key, one
for another key, and a phantom listing entry: the phantom's
`NoSuchUpload` is swallowed, exactly the live id is aborted and returned,
and nothing remains live for the key. -/
theorem claim_C3_witness :
    (⟨[("k", 1), ("x", 2)], [("k", 9)], [], [], 10, 0, []⟩ : S3Client).failures
        = [] ∧
    ((((⟨[("k", 1), ("x", 2)], [("k", 9)], [], [], 10, 0, []⟩ : S3Client).live.filter
        (fun p => p.1 = "k")).map (fun p => p.2)).Nodup) ∧
    (∃ (c' : S3Client) (ids : List Nat),
      abort_all ⟨[("k", 1), ("x", 2)], [("k", 9)], [], [], 10, 0, []⟩ "k" =
        (c', .ok ids) ∧
      ids = (((⟨[("k", 1), ("x", 2)], [("k", 9)], [], [], 10, 0, []⟩ : S3Client).live.filter
        (fun p => p.1 = "k")).map (fun p => p.2)) ∧
      (∀ id, ("k", id) ∉ c'.live) ∧
      (∀ p ∈ (⟨[("k", 1), ("x", 2)], [("k", 9)], [], [], 10, 0, []⟩ : S3Client).live,
        p.1 ≠ "k" → p ∈ c'.live) ∧
      ((∀ id, ("k", id) ∉
          (⟨[("k", 1), ("x", 2)], [("k", 9)], [], [], 10, 0, []⟩ : S3Client).live) →
        ids = [])) :=
  ⟨rfl, by simp,
   claim_C3 ⟨[("k", 1), ("x", 2)], [("k", 9)], [], [], 10, 0, []⟩ "k"
     rfl (by simp)⟩

/-- C2: on a healthy store, for a producer whose stream yields any bytes,
`mongo_dump_to_s3` drives the stream-upload operation of the transfer
session over those bytes (spec-modelled `upload_from_stream`, which takes
an arbitrary byte stream rather than a spawned process), completes the
multipart upload on success — the newest completed object at the key
holds exactly the streamed bytes — and returns `BackupStats` whose `size`
equals the total number of bytes uploaded. -/
theorem claim_C2
    (c : S3Client) (dump : MongoDumpProc) (uriDb collection bucket key : String)
    (db : Option String) (chunk_size buffer_size : Option Nat) (elapsed : ℚ)
    (hf : c.failures = [])
    (hnd : ((c.live.filter (fun p => p.1 = key)).map (fun p => p.2)).Nodup)
    (hgrace : dump.exitsWithinGrace = true) (hrc : dump.returncode = 0)
    (hcs : PART_MINIMUM ≤ pyOr chunk_size DEFAULT_CHUNK_SIZE) :
    ∃ c' : S3Client,
      mongo_dump_to_s3 c dump uriDb collection bucket key db chunk_size
          buffer_size elapsed =
        (c', .ok { bucket := bucket, collection := collection,
                   db := pyOrStr db uriDb, key := key,
                   num_docs := dump.num_docs, time := some elapsed,
                   size := some dump.output.length }) ∧
      c'.objects.head? = some (key, dump.output) :=
  mongo_dump_to_s3_success c dump uriDb collection bucket key db chunk_size
    buffer_size elapsed hf hnd hgrace hrc hcs

/-- C2 (witness): a concrete two-byte dump is uploaded, completed, and
reported with `size = 2`. -/
theorem claim_C2_witness :
    (⟨[], [], [], [], 0, 0, []⟩ : S3Client).failures = [] ∧
    ((((⟨[], [], [], [], 0, 0, []⟩ : S3Client).live.filter
        (fun p => p.1 = "k")).map (fun p => p.2)).Nodup) ∧
    (⟨[10, 20], some 5, true, 0⟩ : MongoDumpProc).exitsWithinGrace = true ∧
    (⟨[10, 20], some 5, true, 0⟩ : MongoDumpProc).returncode = 0 ∧
    PART_MINIMUM ≤ pyOr none DEFAULT_CHUNK_SIZE ∧
    (∃ c' : S3Client,
      mongo_dump_to_s3 ⟨[], [], [], [], 0, 0, []⟩ ⟨[10, 20], some 5, true, 0⟩
          "udb" "coll" "b" "k" none none none 2 =
        (c', .ok { bucket := "b", collection := "coll",
                   db := pyOrStr none "udb", key := "k",
                   num_docs := (⟨[10, 20], some 5, true, 0⟩ : MongoDumpProc).num_docs,
                   time := some 2,
                   size := some (⟨[10, 20], some 5, true, 0⟩ : MongoDumpProc).output.length }) ∧
      c'.objects.head? = some ("k", (⟨[10, 20], some 5, true, 0⟩ : MongoDumpProc).output)) :=
  ⟨rfl, by simp, rfl, rfl, by decide,
   claim_C2 ⟨[], [], [], [], 0, 0, []⟩ ⟨[10, 20], some 5, true, 0⟩
     "udb" "coll" "b" "k" none none none 2 rfl (by simp) rfl rfl (by decide)⟩

/-- C4 (counterexample): when streaming fails (here: the producer exits
with status 1) and the handler's `abort_all` itself fails (the store
becomes unreachable at that call), `mongo_dump_to_s3` raises the abort's
error — the bare `raise` in the `except` block never runs — so the
original error *is* masked, contradicting the claim that an abort failure
never masks it. -/
theorem claim_C4_counterexample :
    (mongo_dump_to_s3 ⟨[], [], [], [], 0, 0, [3]⟩ ⟨[1], some 5, true, 1⟩
        "udb" "coll" "b" "k" none none none 2).2 =
      .error (.s3Error .serviceError) ∧
    (.error (.s3Error .serviceError) : Except BackupError BackupStats) ≠
      .error (.dumpExit (⟨[1], some 5, true, 1⟩ : MongoDumpProc).returncode) := by
  exact ⟨rfl, by simp⟩

/-- C4 (amended): any error raised while streaming or while waiting on
the producer aborts the in-flight transfer and is re-raised unchanged to
the caller — provided the abort itself succeeds (if the abort raises, its
error propagates instead, masking the original) — with no automatic
retry; no completed object is added to the store on the failure path, and
no live transfer for the key remains. First conjunct: producer failures
(post-stream timeout or nonzero exit) on a healthy store. Second
conjunct: a streaming failure — the store raises on the first part
upload, the one scheduled failure — after which the handler's abort
succeeds and the original streaming error reaches the caller. -/
theorem claim_C4
    (c : S3Client) (dump : MongoDumpProc) (uriDb collection bucket key : String)
    (db : Option String) (chunk_size buffer_size : Option Nat) (elapsed : ℚ)
    (hcs : PART_MINIMUM ≤ pyOr chunk_size DEFAULT_CHUNK_SIZE) :
    (c.failures = [] →
      ((c.live.filter (fun p => p.1 = key)).map (fun p => p.2)).Nodup →
      dump.exitsWithinGrace = false ∨ dump.returncode ≠ 0 →
      ∃ c' : S3Client,
        mongo_dump_to_s3 c dump uriDb collection bucket key db chunk_size
            buffer_size elapsed =
          (c', .error (if dump.exitsWithinGrace then .dumpExit dump.returncode
                       else .dumpTimeout)) ∧
        c'.objects = c.objects ∧ (∀ id, (key, id) ∉ c'.live)) ∧
    (c.failures = [c.clock + 2] →
      (∀ p ∈ c.live, p.1 ≠ key) →
      (∀ p ∈ c.phantom, p.1 ≠ key) →
      dump.output ≠ [] →
      ∃ c' : S3Client,
        mongo_dump_to_s3 c dump uriDb collection bucket key db chunk_size
            buffer_size elapsed =
          (c', .error (.s3Error .serviceError)) ∧
        c'.objects = c.objects ∧ (∀ id, (key, id) ∉ c'.live)) :=
  ⟨fun hf hnd hfail =>
    mongo_dump_to_s3_failure c dump uriDb collection bucket key db chunk_size
      buffer_size elapsed hf hnd hfail hcs,
   fun hsched hlv hph hout =>
    mongo_dump_to_s3_stream_error c dump uriDb collection bucket key db
      chunk_size buffer_size elapsed hsched hlv hph hout hcs⟩

/-- C4 (amended, witness): first, a producer exiting with status 3 on a
healthy store — the transfer is aborted, no object is completed, and the
original `dumpExit 3` reaches the caller; second, a store that raises on
the first part upload — the transfer is aborted and the original
streaming service error reaches the caller, again with no completed
object. -/
theorem claim_C4_witness :
    PART_MINIMUM ≤ pyOr none DEFAULT_CHUNK_SIZE ∧
    ((⟨[], [], [], [], 0, 0, []⟩ : S3Client).failures = [] ∧
     ((((⟨[], [], [], [], 0, 0, []⟩ : S3Client).live.filter
        (fun p => p.1 = "k")).map (fun p => p.2)).Nodup) ∧
     ((⟨[1], some 5, true, 3⟩ : MongoDumpProc).exitsWithinGrace = false ∨
      (⟨[1], some 5, true, 3⟩ : MongoDumpProc).returncode ≠ 0) ∧
     (∃ c' : S3Client,
       mongo_dump_to_s3 ⟨[], [], [], [], 0, 0, []⟩ ⟨[1], some 5, true, 3⟩
           "udb" "coll" "b" "k" none none none 2 =
         (c', .error (if (⟨[1], some 5, true, 3⟩ : MongoDumpProc).exitsWithinGrace
                      then .dumpExit (⟨[1], some 5, true, 3⟩ : MongoDumpProc).returncode
                      else .dumpTimeout)) ∧
       c'.objects = (⟨[], [], [], [], 0, 0, []⟩ : S3Client).objects ∧
       (∀ id, ("k", id) ∉ c'.live))) ∧
    ((⟨[], [], [], [], 0, 0, [2]⟩ : S3Client).failures =
        [(⟨[], [], [], [], 0, 0, [2]⟩ : S3Client).clock + 2] ∧
     (∀ p ∈ (⟨[], [], [], [], 0, 0, [2]⟩ : S3Client).live, p.1 ≠ "k") ∧
     (∀ p ∈ (⟨[], [], [], [], 0, 0, [2]⟩ : S3Client).phantom, p.1 ≠ "k") ∧
     (⟨[1], some 5, true, 0⟩ : MongoDumpProc).output ≠ [] ∧
     (∃ c' : S3Client,
       mongo_dump_to_s3 ⟨[], [], [], [], 0, 0, [2]⟩ ⟨[1], some 5, true, 0⟩
           "udb" "coll" "b" "k" none none none 2 =
         (c', .error (.s3Error .serviceError)) ∧
       c'.objects = (⟨[], [], [], [], 0, 0, [2]⟩ : S3Client).objects ∧
       (∀ id, ("k", id) ∉ c'.live))) :=
  ⟨by decide,
   ⟨rfl, by simp, Or.inr (by decide),
    (claim_C4 ⟨[], [], [], [], 0, 0, []⟩ ⟨[1], some 5, true, 3⟩ "udb" "coll"
      "b" "k" none none none 2 (by decide)).1 rfl (by simp)
      (Or.inr (by decide))⟩,
   ⟨rfl, by simp, by simp, by simp,
    (claim_C4 ⟨[], [], [], [], 0, 0, [2]⟩ ⟨[1], some 5, true, 0⟩ "udb" "coll"
      "b" "k" none none none 2 (by decide)).2 rfl (by simp) (by simp)
      (by simp)⟩⟩

end LambdaMongo
